import Mathlib

/-!
Verification of the BK5000 ultrasound streaming client
(sksurgerybk/interface/bk5000.py).

The byte buffer is modelled as a `List Nat` of byte values, numpy index
arrays as `List Nat` of indices, and Python exceptions (IndexError,
ValueError) as `Option`/explicit error results.  All definitions follow
the Python source; the only spec-side definitions (used for refinement
statements) are clearly marked as such.
-/

namespace BK

/-- The control bytes of the protocol, `self.control_bits = [1, 4, 27]`
in the source. -/
def control_bits : List Nat := [1, 4, 27]

/-- `self.flipped_control_bits = [bit ^ 0xFF for bit in self.control_bits]`,
i.e. `[254, 251, 228]`. -/
def flipped_control_bits : List Nat := control_bits.map (fun bit => bit ^^^ 0xFF)

/-- `find_first_a_not_preceded_by_b(self, start_pos, a, b)` from the source.

The Python works on `trimmed_buffer = self.np_buffer[start_pos:]`.
If `trimmed_buffer[0] == a` it returns `found = 0` (note: the
window-relative index, not `start_pos`).  Otherwise it collects the
indices of all occurrences of `a` in the trimmed window
(`a_idx = np.where(trimmed_buffer == a)[0]`, all of which are >= 1 here),
keeps the ones whose predecessor in the window differs from `b`, and
returns `start_pos +` the first such index, or `-1` when there is none.
Indexing `trimmed_buffer[0]` on an empty window raises IndexError,
modelled as `none`. -/
def find_first_a_not_preceded_by_b (buf : List Nat) (start_pos a b : Nat) :
    Option Int :=
  let trimmed := buf.drop start_pos
  match trimmed with
  | [] => none
  | t0 :: _ =>
    if t0 = a then some 0
    else
      match (List.range trimmed.length).filter
          (fun j => trimmed.getD j 0 == a && !(trimmed.getD (j - 1) 0 == b)) with
      | [] => some (-1)
      | j :: _ => some ((start_pos : Int) + (j : Int))

/-- `clear_bytes_in_buffer(self, start, end)` from the source:
caps `end` at `len(self.buffer)` and performs `del self.buffer[start:end]`,
which removes indices `start <= i < end` (end exclusive).  Python's
`del` of a slice with `end <= start` removes nothing, captured by the
`max`. -/
def clear_bytes_in_buffer (buf : List Nat) (start e : Nat) : List Nat :=
  let e2 := if e ≥ buf.length then buf.length else e
  buf.take start ++ buf.drop (max start e2)

/-- Position `i` is a deletion site of `decode_image`: the byte is 27 and the
following byte is one of the flipped control bits.  This is the combined
content of `uc27_idx` and the `np.where(self.np_buffer[uc27_idx + 1] == bit)`
loop of the source (out-of-range reads cannot report a hit because the
flipped control bits are nonzero; the genuinely out-of-range read the
source performs when the final byte is 27 is handled in `decode_image`). -/
def isEscIdx (l : List Nat) (i : Nat) : Bool :=
  l.getD i 0 == 27 &&
    (l.getD (i + 1) 0 == 254 || l.getD (i + 1) 0 == 251 || l.getD (i + 1) 0 == 228)

/-- The index set `idx_to_del` accumulated by `decode_image` (as a sorted
list; the source accumulates it grouped by flipped control bit, but the
set of indices is the same and `np.delete` / fancy-indexed XOR are
order-insensitive). -/
def escIndices (l : List Nat) : List Nat :=
  (List.range l.length).filter (fun i => isEscIdx l i)

/-- The array returned by `decode_image` in the non-raising case:
`self.np_buffer[idx_to_del + 1] ^= 0xFF` flips the byte following every
deletion site, then `np.delete(self.np_buffer, idx_to_del)` drops the
deletion sites themselves. -/
def decodeResult (l : List Nat) : List Nat :=
  ((List.range l.length).filter (fun i => !(isEscIdx l i))).map
    (fun i => if 0 < i ∧ isEscIdx l (i - 1) = true then l.getD i 0 ^^^ 255
              else l.getD i 0)

/-- `decode_image(self)` from the source, as a function of the current
`np_buffer` window.  When the final byte is 27, the fancy index
`self.np_buffer[uc27_idx + 1]` is out of bounds and numpy raises
IndexError before any byte is flipped; this is modelled as `none`. -/
def decode_image (l : List Nat) : Option (List Nat) :=
  if l.getLast? = some 27 then none
  else some (decodeResult l)

/-- Does `pat` occur at the head of `l`?  Helper for `bytesFind`. -/
def listStartsWith : List Nat → List Nat → Bool
  | [], _ => true
  | _ :: _, [] => false
  | p :: ps, x :: xs => p == x && listStartsWith ps xs

/-- Python `bytearray.find(pat, start)`: smallest index `i >= start` at
which `pat` occurs as a contiguous subsequence of `buf`, or `-1`. -/
def bytesFind (buf pat : List Nat) (start : Nat) : Int :=
  match (List.range buf.length).filter
      (fun i => decide (start ≤ i) && listStartsWith pat (buf.drop i)) with
  | [] => -1
  | i :: _ => (i : Int)

/-- Python slice-bound normalisation for an index into a sequence of
length `n`: negative indices count from the end (clamped at 0),
nonnegative ones are clamped at `n`. -/
def pyNormIdx (i : Int) (n : Nat) : Nat :=
  if i < 0 then (i + n).toNat else min i.toNat n

/-- The byte values of `"DATA:GRAB_FRAME".encode('utf-8')`. -/
def grabFrameTag : List Nat :=
  [68, 65, 84, 65, 58, 71, 82, 65, 66, 95, 70, 82, 65, 77, 69]

/-- Line 291 of the source:
`self.find_first_a_not_preceded_by_b(0, 0x01, 0x27)`.
Note the guard byte literal is `0x27` = 39, not 27. -/
def msgStartIdx (buf : List Nat) : Option Int :=
  find_first_a_not_preceded_by_b buf 0 0x01 0x27

/-- Lines 299-300 of the source:
`self.find_first_a_not_preceded_by_b(msg_start_idx, 0x04, 0x27)`. -/
def msgEndIdx (buf : List Nat) (msgStart : Nat) : Option Int :=
  find_first_a_not_preceded_by_b buf msgStart 0x04 0x27

/-- Lines 325-332 of the source: `hash_char` is located with
`self.buffer.find('#'.encode('utf-8'), msg_start_idx)`;
`size_of_data_char = hash_char + 1`;
`start_image_char = size_of_data_char + 1 + 4 + self.buffer[size_of_data_char] - ord('0')`;
`end_image_char = msg_end_idx - 2`.
Returns the pair `(start_image_char, end_image_char)`. -/
def payloadSliceBounds (buf : List Nat) (s e : Int) : Int × Int :=
  let hashChar := bytesFind buf [35] s.toNat
  let sizeOfDataChar := hashChar + 1
  let startImageChar :=
    sizeOfDataChar + 1 + 4 + (buf.getD sizeOfDataChar.toNat 0 : Int) - 48
  (startImageChar, e - 2)

/-- Line 334 of the source:
`self.np_buffer = self.np_buffer[start_image_char:end_image_char + 1]`,
with Python slice semantics over the whole-buffer view. -/
def payloadWindow (buf : List Nat) (s e : Int) : List Nat :=
  let p := payloadSliceBounds buf s e
  let a := pyNormIdx p.1 buf.length
  let b := pyNormIdx (p.2 + 1) buf.length
  (buf.drop a).take (b - a)

/-- The aliasing effect of `decode_image` on the backing bytearray:
`self.np_buffer` is a numpy view of `self.buffer` starting at absolute
offset `off`, so `self.np_buffer[idx_to_del + 1] ^= 0xFF` flips byte
`off + j + 1` of the bytearray for every deletion site `j` of the
window. -/
def applyEscFlips (buf : List Nat) (off : Nat) (window : List Nat) : List Nat :=
  (List.range buf.length).map (fun i =>
    if off + 1 ≤ i ∧ (escIndices window).contains (i - (off + 1)) = true then
      buf.getD i 0 ^^^ 255
    else buf.getD i 0)

/-- The state of `self.buffer` right after `self.decode_image()` returns
(without raising) inside `receive_image`: the in-place XOR of the view
has flipped the escaped bytes of the payload window inside the backing
bytearray. -/
def bufferAfterDecode (buf : List Nat) (s e : Int) : List Nat :=
  applyEscFlips buf (pyNormIdx (payloadSliceBounds buf s e).1 buf.length)
    (payloadWindow buf s e)

/-- `numpy.reshape(h, w)` for a flat byte list whose length is exactly
`h * w`: `h` rows of `w` consecutive bytes (row-major). -/
def reshapeRows (l : List Nat) (w : Nat) : Nat → List (List Nat)
  | 0 => []
  | hh + 1 => l.take w :: reshapeRows (l.drop w) w hh

/-- Outcome of one `receive_image` call: a normal return with the value of
`valid_frame`, the final `self.buffer`, and `some img` when `self.img`
was assigned; or a propagated exception (`err`) together with the state
of `self.buffer` at the raise point. -/
inductive RIResult where
  | ret (validFrame : Bool) (buffer : List Nat) (img : Option (List (List Nat)))
  | err (buffer : List Nat)
deriving DecidableEq, Repr

/-- `receive_image(self)` from the source, as a function of
`self.buffer`, `self.image_size[0]` (w), `self.image_size[1]` (h) and
`self.pixels_in_image` (pix).

Control flow of the source:
its search for the start marker raises IndexError on an empty buffer
(`err`); a negative start index clears the buffer and returns False;
a missing end marker (`msg_end_idx <= msg_start_idx`) returns False
without touching the buffer; a message without the image tag strictly
between the markers is consumed (`clear_bytes_in_buffer(0, msg_end_idx + 1)`)
and returns False; otherwise the payload window is decoded.  An
IndexError inside `decode_image` propagates before any byte is flipped
(`err buf`); a reshape size mismatch
(`result[:pix].reshape(h, w)` needs exactly `h * w` elements) propagates
after the in-place flips but before the clear (`err (bufferAfterDecode ...)`);
on success the image is assigned, the message bytes are cleared and True
is returned. -/
def receive_image (buf : List Nat) (w h pix : Nat) : RIResult :=
  match msgStartIdx buf with
  | none => .err buf
  | some s =>
    if s < 0 then .ret false [] none
    else
      match msgEndIdx buf s.toNat with
      | none => .err buf
      | some e =>
        if e ≤ s then .ret false buf none
        else
          let imgMsgIndex := bytesFind buf grabFrameTag s.toNat
          if ¬ (imgMsgIndex ≠ -1 ∧ s < imgMsgIndex ∧ imgMsgIndex < e) then
            .ret false (clear_bytes_in_buffer buf 0 (e + 1).toNat) none
          else
            let sizeOfDataChar := bytesFind buf [35] s.toNat + 1
            if sizeOfDataChar.toNat < buf.length then
              match decode_image (payloadWindow buf s e) with
              | none => .err buf
              | some result =>
                let buf2 := bufferAfterDecode buf s e
                let taken := result.take pix
                if taken.length = h * w then
                  .ret true (clear_bytes_in_buffer buf2 0 (e + 1).toNat)
                    (some (reshapeRows taken w h))
                else .err buf2
            else .err buf

/-! ### Window-size message parser (`parse_win_size_message`)

Python strings are modelled as `List Char`.  `message.split()` splits on
runs of whitespace discarding empty tokens; `[-1]` on an empty list
raises IndexError; `.strip(';')` removes `';'` from both ends;
`.split(',')` keeps empty tokens; `int(s)` tolerates surrounding
whitespace and an optional sign and raises ValueError otherwise.
Raised exceptions are modelled as `none`. -/

/-- Python whitespace for `str.split()` / `int()`. -/
def isPyWs (c : Char) : Bool :=
  c = ' ' || c = '\t' || c = '\n' || c = '\r' || c = '\x0b' || c = '\x0c'

/-- Accumulating worker for `pySplitWs`. -/
def wordsAux : List Char → List Char → List (List Char)
  | acc, [] => if acc = [] then [] else [acc.reverse]
  | acc, c :: t =>
    if isPyWs c then
      if acc = [] then wordsAux [] t else acc.reverse :: wordsAux [] t
    else wordsAux (c :: acc) t

/-- Python `str.split()` with no separator argument. -/
def pySplitWs (s : List Char) : List (List Char) := wordsAux [] s

/-- Accumulating worker for `pySplitOn`. -/
def splitOnAux (sep : Char) : List Char → List Char → List (List Char)
  | acc, [] => [acc.reverse]
  | acc, c :: t =>
    if c = sep then acc.reverse :: splitOnAux sep [] t
    else splitOnAux sep (c :: acc) t

/-- Python `str.split(sep)` for a one-character separator (keeps empty
tokens). -/
def pySplitOn (s : List Char) (sep : Char) : List (List Char) := splitOnAux sep [] s

/-- Python `str.strip(c)` for a one-character strip set. -/
def pyStrip (s : List Char) (c : Char) : List Char :=
  ((s.dropWhile (· = c)).reverse.dropWhile (· = c)).reverse

/-- Digit-run accumulator for `pyInt`; `none` on a non-digit. -/
def pyNatDigitsAux : Nat → List Char → Option Nat
  | acc, [] => some acc
  | acc, c :: t =>
    if c.isDigit then pyNatDigitsAux (acc * 10 + (c.toNat - 48)) t else none

/-- A nonempty all-digit run parsed as a natural number. -/
def pyNatDigits : List Char → Option Nat
  | [] => none
  | l => pyNatDigitsAux 0 l

/-- Python `int(s)`: surrounding whitespace stripped, optional single
sign, then a nonempty digit run; anything else raises ValueError
(`none`). -/
def pyInt (s : List Char) : Option Int :=
  let t := ((s.dropWhile isPyWs).reverse.dropWhile isPyWs).reverse
  match t with
  | '-' :: ds => (pyNatDigits ds).map (fun n => -(n : Int))
  | '+' :: ds => (pyNatDigits ds).map (fun n => (n : Int))
  | ds => (pyNatDigits ds).map (fun n => (n : Int))

/-- `parse_win_size_message(self, message)` from the source:
`dim_part_of_message = message.split()[-1].strip(';').split(',')`,
`self.image_size = [int(s) for s in dim_part_of_message]`,
`self.pixels_in_image = self.image_size[0] * self.image_size[1]`.
Returns `some (image_size, pixels_in_image)`, or `none` when one of the
Python operations raises (empty split, a non-integer token, or fewer
than two parsed dimensions). -/
def parse_win_size_message (message : List Char) : Option (List Int × Int) :=
  match (pySplitWs message).getLast? with
  | none => none
  | some tok =>
    match (pySplitOn (pyStrip tok ';') ',').mapM pyInt with
    | none => none
    | some dims =>
      if 2 ≤ dims.length then some (dims, dims.getD 0 0 * dims.getD 1 0)
      else none

/-! ### Spec-side definitions (for refinement statements only)

These two definitions are written from the specification text, not from
the source; they are compared with the source-derived definitions in the
theorems below. -/

/-- Modelled from the spec: `unescape` locates every occurrence of 27
(0x1B) immediately followed by a flipped control value, complements the
following byte and removes the preceding 27, consuming each 27 at most
once, scanning left to right. -/
def unescapeSpec : List Nat → List Nat
  | [] => []
  | [a] => [a]
  | a :: b :: t2 =>
    if a = 27 ∧ (b = 254 ∨ b = 251 ∨ b = 228) then (b ^^^ 255) :: unescapeSpec t2
    else a :: unescapeSpec (b :: t2)

/-- Modelled from the spec: a byte sequence contains an escape pattern
when some 27 is immediately followed by a flipped control value. -/
def hasEscPair : List Nat → Bool
  | [] => false
  | _ :: [] => false
  | a :: b :: t => (a == 27 && (b == 254 || b == 251 || b == 228)) || hasEscPair (b :: t)

/-! ### Concrete frames used as witnesses and counterexamples -/

/-- A well-formed image frame for a 2 x 2 geometry: start marker, the
`DATA:GRAB_FRAME` tag, `#`, size-of-size digit `'1'`, four sub-header
bytes, one length digit, the 4-byte payload `[10, 20, 30, 40]`, one
trailing byte, end marker. -/
def imageFrameExample : List Nat :=
  [1] ++ grabFrameTag ++ [35, 49] ++ [200, 201, 202, 203] ++ [52] ++
    [10, 20, 30, 40] ++ [9] ++ [4]

/-- The same frame with a payload of only 3 bytes (shorter than
`pixels_in_image = 4`). -/
def shortPayloadFrame : List Nat :=
  [1] ++ grabFrameTag ++ [35, 49] ++ [200, 201, 202, 203] ++ [51] ++
    [10, 20, 30] ++ [9] ++ [4]

/-- The same frame whose payload window `[27, 254, 27]` contains an
escape sequence but ends with the escape byte 27. -/
def escCrashFrame : List Nat :=
  [1] ++ grabFrameTag ++ [35, 49] ++ [200, 201, 202, 203] ++ [51] ++
    [27, 254, 27] ++ [9] ++ [4]

/-! ### Helper lemmas -/

theorem clear_bytes_zero (l : List Nat) (k : Nat) :
    clear_bytes_in_buffer l 0 k = l.drop k := by
  unfold clear_bytes_in_buffer
  simp only [List.take_zero, List.nil_append, Nat.max_eq_right (Nat.zero_le _)]
  split
  · next h => rw [List.drop_length, Eq.comm, List.drop_eq_nil_iff]; omega
  · rfl

theorem getD_map_range {α : Type} (f : Nat → α) (n i : Nat) (d : α) (h : i < n) :
    (((List.range n).map f).getD i d) = f i := by
  rw [List.getD_eq_getElem?_getD, List.getElem?_map, List.getElem?_range h]
  rfl

theorem map_getD_range_self (l : List Nat) :
    (List.range l.length).map (fun i => l.getD i 0) = l := by
  induction l with
  | nil => rfl
  | cons a t ih =>
    rw [List.length_cons, List.range_succ_eq_map, List.map_cons, List.map_map]
    simp only [Function.comp_def, List.getD_cons_zero, List.getD_cons_succ]
    rw [ih]

theorem applyEscFlips_length (buf : List Nat) (off : Nat) (w : List Nat) :
    (applyEscFlips buf off w).length = buf.length := by
  unfold applyEscFlips
  rw [List.length_map, List.length_range]

theorem isEscIdx_cons_succ (x : Nat) (l : List Nat) (i : Nat) :
    isEscIdx (x :: l) (i + 1) = isEscIdx l i := by
  simp [isEscIdx, List.getD_cons_succ]

theorem decodeResult_cons (x : Nat) (l : List Nat) :
    decodeResult (x :: l) =
      (if isEscIdx (x :: l) 0 = true then [] else [x]) ++
        ((List.range l.length).filter (fun i => !(isEscIdx l i))).map
          (fun i => if isEscIdx (x :: l) i = true then l.getD i 0 ^^^ 255
                    else l.getD i 0) := by
  unfold decodeResult
  rw [List.length_cons, List.range_succ_eq_map, List.filter_cons]
  have hfilter :
      ((fun i => !(isEscIdx (x :: l) i)) ∘ Nat.succ) = fun i => !(isEscIdx l i) := by
    funext i
    simp [Function.comp_def, isEscIdx_cons_succ]
  have hmap :
      ((fun i => if 0 < i ∧ isEscIdx (x :: l) (i - 1) = true
                 then (x :: l).getD i 0 ^^^ 255 else (x :: l).getD i 0) ∘ Nat.succ) =
        fun i => if isEscIdx (x :: l) i = true then l.getD i 0 ^^^ 255
                 else l.getD i 0 := by
    funext i
    simp only [Function.comp_def, Nat.succ_eq_add_one, Nat.add_sub_cancel,
      Nat.succ_pos, true_and, List.getD_cons_succ]
  by_cases h0 : isEscIdx (x :: l) 0 = true
  · simp only [h0, Bool.not_true, Bool.false_eq_true, if_false, if_true]
    rw [List.filter_map, List.map_map, hfilter, hmap, List.nil_append]
  · rw [Bool.not_eq_true] at h0
    simp only [h0, Bool.not_false, Bool.false_eq_true, if_true, if_false]
    rw [List.map_cons, List.filter_map, List.map_map, hfilter, hmap,
      List.getD_cons_zero]
    have hz : ¬ (0 < 0 ∧ isEscIdx (x :: l) (0 - 1) = true) := by
      intro hc; exact absurd hc.1 (lt_irrefl 0)
    rw [if_neg hz, List.singleton_append]

theorem escShiftPointwise (x : Nat) (l : List Nat) (hx : isEscIdx (x :: l) 0 = false) :
    ∀ i, (if isEscIdx (x :: l) i = true then l.getD i 0 ^^^ 255 else l.getD i 0) =
      (if 0 < i ∧ isEscIdx l (i - 1) = true then l.getD i 0 ^^^ 255
       else l.getD i 0) := by
  intro i
  match i with
  | 0 =>
    rw [hx]
    simp
  | k + 1 =>
    rw [isEscIdx_cons_succ]
    simp only [Nat.add_sub_cancel, Nat.succ_pos, true_and]

theorem decodeResult_cons_noesc (x : Nat) (l : List Nat)
    (hx : isEscIdx (x :: l) 0 = false) :
    decodeResult (x :: l) = x :: decodeResult l := by
  rw [decodeResult_cons, hx]
  simp only [Bool.false_eq_true, if_false, List.singleton_append]
  unfold decodeResult
  rw [List.map_congr_left (fun i _ => escShiftPointwise x l hx i)]

theorem decodeResult_cons_esc (b : Nat) (t : List Nat)
    (hb : isEscIdx (27 :: b :: t) 0 = true) :
    decodeResult (27 :: b :: t) = (b ^^^ 255) :: decodeResult t := by
  have hbflip : b = 254 ∨ b = 251 ∨ b = 228 := by
    have := hb
    simp only [isEscIdx, List.getD_cons_zero, List.getD_cons_succ, beq_iff_eq,
      Bool.and_eq_true, Bool.or_eq_true] at this
    omega
  have hbt0 : isEscIdx (b :: t) 0 = false := by
    have hb27 : ¬ (b = 27) := by omega
    simp [isEscIdx, List.getD_cons_zero, hb27]
  rw [decodeResult_cons, hb]
  simp only [if_true, List.nil_append]
  rw [List.length_cons, List.range_succ_eq_map, List.filter_cons]
  rw [hbt0]
  simp only [Bool.not_false, if_true, List.map_cons, List.getD_cons_zero, hb]
  rw [List.filter_map, List.map_map]
  have hfilter :
      ((fun i => !(isEscIdx (b :: t) i)) ∘ Nat.succ) = fun i => !(isEscIdx t i) := by
    funext i
    simp [Function.comp_def, isEscIdx_cons_succ]
  have hmap :
      ((fun i => if isEscIdx (27 :: b :: t) i = true then (b :: t).getD i 0 ^^^ 255
                 else (b :: t).getD i 0) ∘ Nat.succ) =
        fun i => if isEscIdx (b :: t) i = true then t.getD i 0 ^^^ 255
                 else t.getD i 0 := by
    funext i
    simp only [Function.comp_def, Nat.succ_eq_add_one, isEscIdx_cons_succ,
      List.getD_cons_succ]
  rw [hfilter, hmap]
  have htail :
      ((List.range t.length).filter (fun i => !(isEscIdx t i))).map
        (fun i => if isEscIdx (b :: t) i = true then t.getD i 0 ^^^ 255
                  else t.getD i 0) = decodeResult t := by
    unfold decodeResult
    exact List.map_congr_left (fun i _ => escShiftPointwise b t hbt0 i)
  rw [htail]

theorem decodeResult_eq_unescapeSpec (l : List Nat) : decodeResult l = unescapeSpec l := by
  generalize hn : l.length = n
  induction n using Nat.strong_induction_on generalizing l with
  | _ n ih =>
    match l with
    | [] => rfl
    | [x] =>
      have hx : isEscIdx [x] 0 = false := by
        simp [isEscIdx, List.getD_cons_succ]
      rw [decodeResult_cons, hx]
      simp [unescapeSpec, decodeResult]
    | a :: b :: t =>
      subst hn
      by_cases h0 : isEscIdx (a :: b :: t) 0 = true
      · have ha : a = 27 ∧ (b = 254 ∨ b = 251 ∨ b = 228) := by
          have := h0
          simp only [isEscIdx, List.getD_cons_zero, List.getD_cons_succ, beq_iff_eq,
            Bool.and_eq_true, Bool.or_eq_true] at this
          omega
        obtain ⟨ha1, ha2⟩ := ha
        subst ha1
        rw [decodeResult_cons_esc b t h0, unescapeSpec, if_pos ⟨rfl, ha2⟩]
        rw [ih t.length (by simp only [List.length_cons]; omega) t rfl]
      · rw [Bool.not_eq_true] at h0
        have hna : ¬ (a = 27 ∧ (b = 254 ∨ b = 251 ∨ b = 228)) := by
          intro hc
          obtain ⟨hc1, hc2⟩ := hc
          have htrue : isEscIdx (a :: b :: t) 0 = true := by
            simp only [isEscIdx, List.getD_cons_zero, List.getD_cons_succ, beq_iff_eq,
              Bool.and_eq_true, Bool.or_eq_true]
            exact ⟨hc1, by tauto⟩
          simp [htrue] at h0
        rw [decodeResult_cons_noesc a (b :: t) h0, unescapeSpec, if_neg hna]
        rw [ih (b :: t).length (by simp only [List.length_cons]; omega) (b :: t) rfl]

theorem unescapeSpec_of_no_pair :
    ∀ l : List Nat, hasEscPair l = false → unescapeSpec l = l
  | [], _ => rfl
  | [_], _ => rfl
  | a :: b :: t, h => by
    have hsplit : (a == 27 && (b == 254 || b == 251 || b == 228)) = false ∧
        hasEscPair (b :: t) = false := by
      have := h
      rw [hasEscPair] at this
      exact ⟨by cases hx : (a == 27 && (b == 254 || b == 251 || b == 228)) with
              | true => rw [hx] at this; simp at this
              | false => rfl,
            by cases hy : hasEscPair (b :: t) with
              | true => rw [hy] at this; simp at this
              | false => rfl⟩
    have hna : ¬ (a = 27 ∧ (b = 254 ∨ b = 251 ∨ b = 228)) := by
      intro hc
      obtain ⟨hc1, hc2⟩ := hc
      have : (a == 27 && (b == 254 || b == 251 || b == 228)) = true := by
        simp only [beq_iff_eq, Bool.and_eq_true, Bool.or_eq_true]
        exact ⟨hc1, by tauto⟩
      rw [this] at hsplit
      exact absurd hsplit.1 (by simp)
    rw [unescapeSpec, if_neg hna, unescapeSpec_of_no_pair (b :: t) hsplit.2]

theorem getD_drop (l : List Nat) (n j d : Nat) :
    (l.drop n).getD j d = l.getD (n + j) d := by
  rw [List.getD_eq_getElem?_getD, List.getD_eq_getElem?_getD, List.getElem?_drop]

theorem filter_range_eq_nil_iff (n : Nat) (p : Nat → Bool) :
    (List.range n).filter p = [] ↔ ∀ i, i < n → p i = false := by
  rw [List.filter_eq_nil_iff]
  constructor
  · intro h i hi
    have := h i (List.mem_range.mpr hi)
    simpa using this
  · intro h i hi
    have := h i (List.mem_range.mp hi)
    simp [this]

theorem filter_range_head (n : Nat) (p : Nat → Bool) (j : Nat) (t : List Nat)
    (h : (List.range n).filter p = j :: t) :
    p j = true ∧ j < n ∧ ∀ i, i < j → p i = false := by
  have hmem : j ∈ (List.range n).filter p := by rw [h]; exact List.mem_cons_self j t
  have hj := List.mem_filter.mp hmem
  refine ⟨hj.2, List.mem_range.mp hj.1, ?_⟩
  intro i hij
  by_contra hcon
  rw [Bool.not_eq_false] at hcon
  have hin : i ∈ (List.range n).filter p :=
    List.mem_filter.mpr ⟨List.mem_range.mpr (lt_trans hij (List.mem_range.mp hj.1)), hcon⟩
  have hpw : ((List.range n).filter p).Pairwise (· < ·) :=
    List.Pairwise.sublist (List.filter_sublist _) (List.pairwise_lt_range n)
  rw [h] at hin hpw
  rcases List.mem_cons.mp hin with hji | hit
  · omega
  · have := (List.pairwise_cons.mp hpw).1 i hit
    omega

/-! ### Claim C1 -/

/-- Claim C1, corrected.  The claim as frozen is false: when
`buffer[start_pos]` equals the target the function returns the
window-relative index 0 rather than an index at or after `start_pos`
(the source sets `found = 0` instead of `found = start_pos`; see the
counterexample).  Amended claim: for `start_pos` within the buffer,
(1) if the byte at `start_pos` equals `target` the result is 0
(matching unconditionally, regardless of `guard`); (2) otherwise the
result is `-1` exactly when no index `i > start_pos` holds the target
not preceded by the guard, and any nonnegative result is the smallest
index `i > start_pos` with `buffer[i] = target` and
`buffer[i-1] != guard`. -/
theorem c1_find_first_characterisation (buf : List Nat) (sp a b : Nat)
    (hsp : sp < buf.length) :
    (buf.getD sp 0 = a → find_first_a_not_preceded_by_b buf sp a b = some 0) ∧
    (buf.getD sp 0 ≠ a →
      (find_first_a_not_preceded_by_b buf sp a b = some (-1) ↔
        ∀ i, sp < i → i < buf.length →
          ¬(buf.getD i 0 = a ∧ buf.getD (i - 1) 0 ≠ b)) ∧
      (∀ r : Int, find_first_a_not_preceded_by_b buf sp a b = some r → 0 ≤ r →
        sp < r.toNat ∧ r.toNat < buf.length ∧ buf.getD r.toNat 0 = a ∧
          buf.getD (r.toNat - 1) 0 ≠ b ∧
          ∀ i, sp < i → i < r.toNat →
            ¬(buf.getD i 0 = a ∧ buf.getD (i - 1) 0 ≠ b))) := by
  have hne : buf.drop sp ≠ [] := by
    rw [Ne, List.drop_eq_nil_iff]
    omega
  rcases htr : buf.drop sp with _ | ⟨t0, rest⟩
  · exact absurd htr hne
  have ht0 : buf.getD sp 0 = t0 := by
    have h := getD_drop buf sp 0 0
    rw [htr] at h
    simpa using h.symm
  have hlen : (t0 :: rest).length = buf.length - sp := by
    rw [← htr, List.length_drop]
  have hgd : ∀ j, (t0 :: rest).getD j 0 = buf.getD (sp + j) 0 := by
    intro j
    rw [← htr, getD_drop]
  simp only [find_first_a_not_preceded_by_b, htr]
  constructor
  · intro hEq
    rw [ht0] at hEq
    rw [if_pos hEq]
  · intro hNe
    rw [ht0] at hNe
    rw [if_neg hNe]
    have hbeq : (t0 == a) = false := by
      simp [hNe]
    have hP0 : ((t0 :: rest).getD 0 0 == a && !((t0 :: rest).getD (0 - 1) 0 == b))
        = false := by
      simp [List.getD_cons_zero, hbeq]
    have hPiff : ∀ j, 1 ≤ j →
        (((t0 :: rest).getD j 0 == a && !((t0 :: rest).getD (j - 1) 0 == b)) = true ↔
          (buf.getD (sp + j) 0 = a ∧ buf.getD (sp + j - 1) 0 ≠ b)) := by
      intro j hj
      have hidx : sp + (j - 1) = sp + j - 1 := by omega
      rw [hgd j, hgd (j - 1), hidx]
      simp [Bool.and_eq_true, beq_iff_eq]
    rcases hfil : (List.range (t0 :: rest).length).filter
        (fun j => (t0 :: rest).getD j 0 == a && !((t0 :: rest).getD (j - 1) 0 == b))
        with _ | ⟨j, tl⟩
    · constructor
      · rw [filter_range_eq_nil_iff] at hfil
        constructor
        · intro _ i hi hilen hQ
          have hj1 : 1 ≤ i - sp := by omega
          have hjlt : i - sp < (t0 :: rest).length := by omega
          have hip : sp + (i - sp) = i := by omega
          have hPfalse := hfil (i - sp) hjlt
          rw [← Bool.not_eq_true, hPiff (i - sp) hj1, hip] at hPfalse
          exact hPfalse hQ
        · intro _
          rfl
      · intro r hr hr0
        injection hr with hr
        omega
    · have hhead := filter_range_head _ _ _ _ hfil
      have hj1 : 1 ≤ j := by
        rcases Nat.eq_zero_or_pos j with h0 | h1
        · rw [h0] at hhead
          rw [hP0] at hhead
          exact absurd hhead.1 (by simp)
        · exact h1
      have hQj : buf.getD (sp + j) 0 = a ∧ buf.getD (sp + j - 1) 0 ≠ b :=
        (hPiff j hj1).mp hhead.1
      have hjlen : sp + j < buf.length := by
        have := hhead.2.1
        omega
      constructor
      · constructor
        · intro hcon
          injection hcon with hcon
          omega
        · intro hall
          exact absurd hQj (hall (sp + j) (by omega) hjlen)
      · intro r hr hr0
        injection hr with hr
        have hrn : r.toNat = sp + j := by omega
        rw [hrn]
        refine ⟨by omega, hjlen, hQj.1, hQj.2, ?_⟩
        intro i hi hilt hQ
        have hb1 : 1 ≤ i - sp := by omega
        have hblt : i - sp < j := by omega
        have hip : sp + (i - sp) = i := by omega
        have hPfalse := hhead.2.2 (i - sp) hblt
        rw [← Bool.not_eq_true, hPiff (i - sp) hb1, hip] at hPfalse
        exact hPfalse hQ

/-- Counterexample for C1 as frozen: in buffer `[9, 4]` with
`start_pos = 1`, `target = 4`, `guard = 7`, the first (and only)
occurrence of the target at or after `start_pos` is index 1, but the
function returns 0. -/
theorem c1_counterexample :
    find_first_a_not_preceded_by_b [9, 4] 1 4 7 = some 0 ∧ (0 : Int) < 1 := by
  exact ⟨rfl, by decide⟩

/-- Witness for C1: the characterisation applied to the concrete buffer
`[9, 5, 8, 4]` with `start_pos = 1`, `target = 4`, `guard = 7`: the head
of the window is not the target, and the function returns the absolute
index 3 of the first valid occurrence. -/
theorem c1_witness :
    (1 < ([9, 5, 8, 4] : List Nat).length ∧ ([9, 5, 8, 4] : List Nat).getD 1 0 ≠ 4 ∧
      find_first_a_not_preceded_by_b [9, 5, 8, 4] 1 4 7 = some 3 ∧ (0 : Int) ≤ 3) ∧
      (1 < (3 : Int).toNat ∧ (3 : Int).toNat < ([9, 5, 8, 4] : List Nat).length ∧
        ([9, 5, 8, 4] : List Nat).getD (3 : Int).toNat 0 = 4 ∧
        ([9, 5, 8, 4] : List Nat).getD ((3 : Int).toNat - 1) 0 ≠ 7 ∧
        ∀ i, 1 < i → i < (3 : Int).toNat →
          ¬(([9, 5, 8, 4] : List Nat).getD i 0 = 4 ∧
            ([9, 5, 8, 4] : List Nat).getD (i - 1) 0 ≠ 7)) := by
  refine ⟨⟨by decide, by decide, rfl, by decide⟩, ?_⟩
  exact ((c1_find_first_characterisation [9, 5, 8, 4] 1 4 7 (by decide)).2
    (by decide)).2 3 rfl (by decide)

/-! ### Claim C2 -/

/-- Claim C2, corrected.  The claim as frozen is false: a byte sequence
whose final byte is the escape byte 27 makes `decode_image` raise an
IndexError (the fancy index `np_buffer[uc27_idx + 1]` is out of
bounds), so such a sequence is not returned unchanged even when it
contains no escape pattern (see the counterexample).  Amended claim: for
every byte sequence whose final byte is not 27, `decode_image` computes
exactly the left-to-right unescape transform: one 27 removed per
occurrence of 27 followed by a flipped control value, with the following
byte restored to its bitwise complement, each 27 consumed at most once;
in particular a sequence with no escape pattern is returned unchanged
and the transform is idempotent on escape-free input. -/
theorem c2_decode_image_unescapes (buf : List Nat)
    (hlast : buf.getLast? ≠ some 27) :
    decode_image buf = some (unescapeSpec buf) ∧
      (hasEscPair buf = false →
        unescapeSpec buf = buf ∧
          (decode_image buf).bind decode_image = decode_image buf) := by
  have hd : decode_image buf = some (decodeResult buf) := by
    unfold decode_image
    rw [if_neg hlast]
  refine ⟨by rw [hd, decodeResult_eq_unescapeSpec], fun hno => ?_⟩
  have hid : unescapeSpec buf = buf := unescapeSpec_of_no_pair buf hno
  refine ⟨hid, ?_⟩
  rw [hd, decodeResult_eq_unescapeSpec, hid, Option.some_bind, hd,
    decodeResult_eq_unescapeSpec, hid]

/-- Claim C2, counterexample to the frozen statement: `[27]` contains no
escape pattern, yet `decode_image` raises (returns `none`) instead of
returning the sequence unchanged. -/
theorem c2_counterexample :
    decode_image [27] = none ∧ hasEscPair [27] = false := by
  exact ⟨rfl, rfl⟩

/-- Witness for C2: a concrete escaped sequence is unescaped, and a
concrete escape-free sequence is returned unchanged and is a fixed point
of the transform. -/
theorem c2_witness :
    (([5, 27, 254, 6] : List Nat).getLast? ≠ some 27 ∧
      decode_image [5, 27, 254, 6] = some [5, 1, 6]) ∧
      (hasEscPair [5, 6] = false ∧ unescapeSpec [5, 6] = [5, 6] ∧
        (decode_image [5, 6]).bind decode_image = decode_image [5, 6]) := by
  refine ⟨⟨by decide, ?_⟩, by decide, ?_, ?_⟩
  · have h := (c2_decode_image_unescapes [5, 27, 254, 6] (by decide)).1
    simpa using h
  · exact ((c2_decode_image_unescapes [5, 6] (by decide)).2 (by decide)).1
  · exact ((c2_decode_image_unescapes [5, 6] (by decide)).2 (by decide)).2

/-! ### Claim C6 -/

/-- Claim C6, corrected.  The claim as frozen is false:
`clear_bytes_in_buffer(0, end_index)` performs `del buffer[0:end]`,
which is end-exclusive, so the byte at `end_index` itself is kept (see
the counterexample).  Amended claim: with start 0 the operation removes
exactly the bytes at offsets 0 up to but excluding `end_index`
(remaining byte `j` is the old byte `end_index + j`), and clears the
buffer entirely when `end_index` is at least the current length. -/
theorem c6_clear_bytes_trim (buf : List Nat) (e : Nat) :
    (clear_bytes_in_buffer buf 0 e).length = buf.length - e ∧
    (∀ j, (clear_bytes_in_buffer buf 0 e).getD j 0 = buf.getD (e + j) 0) ∧
    (e ≥ buf.length → clear_bytes_in_buffer buf 0 e = []) := by
  rw [clear_bytes_zero]
  refine ⟨by rw [List.length_drop], fun j => getD_drop buf e j 0, fun h => ?_⟩
  rw [List.drop_eq_nil_iff]
  omega

/-- Counterexample for C6 as frozen: trimming `[5]` with `end_index = 0`
should remove the byte at offset 0 inclusive, but the buffer is
returned intact. -/
theorem c6_counterexample :
    clear_bytes_in_buffer [5] 0 0 = [5] ∧ ([5] : List Nat) ≠ [] := by
  exact ⟨rfl, by decide⟩

/-- Witness for C6: trimming a 3-byte buffer with `end_index = 3`
clears it entirely. -/
theorem c6_witness :
    (clear_bytes_in_buffer [5, 6, 7] 0 3).length = 0 ∧
      clear_bytes_in_buffer [5, 6, 7] 0 3 = [] := by
  refine ⟨?_, (c6_clear_bytes_trim [5, 6, 7] 3).2.2 (by decide)⟩
  have h := (c6_clear_bytes_trim [5, 6, 7] 3).1
  simpa using h

/-! ### Claim C8 -/

/-- Claim C8, corrected.  The claim as frozen is false: the source
performs no validation at all on the parsed window dimensions, so a
response carrying a zero or negative width or height is accepted and
stored rather than raising a protocol error (see the counterexample).
Amended claim: `parse_win_size_message` stores exactly the integers
parsed from the final whitespace-separated token (with
`pixels_in_image` their product), accepting zero and negative values
without error. -/
theorem c8_parse_win_size_no_validation :
    (∀ msg (w h p : Int), parse_win_size_message msg = some ([w, h], p) →
      p = w * h) ∧
    parse_win_size_message ("DATA:US_WIN_SIZE 0,480;").toList = some ([0, 480], 0) ∧
    parse_win_size_message ("DATA:US_WIN_SIZE -640,480;").toList =
      some ([-640, 480], -307200) := by
  refine ⟨?_, rfl, rfl⟩
  intro msg w h p hp
  unfold parse_win_size_message at hp
  rcases hgl : (pySplitWs msg).getLast? with _ | tok
  · rw [hgl] at hp
    exact absurd hp (by simp)
  · rw [hgl] at hp
    dsimp only at hp
    rcases hm : (pySplitOn (pyStrip tok ';') ',').mapM pyInt with _ | dims
    · rw [hm] at hp
      exact absurd hp (by simp)
    · rw [hm] at hp
      dsimp only at hp
      by_cases hl : 2 ≤ dims.length
      · rw [if_pos hl] at hp
        simp only [Option.some.injEq, Prod.mk.injEq] at hp
        obtain ⟨hdims, hpix⟩ := hp
        subst hdims
        simp only [List.getD_cons_zero, List.getD_cons_succ] at hpix
        exact hpix.symm
      · rw [if_neg hl] at hp
        exact absurd hp (by simp)

/-- Counterexample for C8 as frozen: a window-size response with width 0
is accepted and stored (no exception), with nonpositive stored
geometry. -/
theorem c8_counterexample :
    parse_win_size_message ("DATA:US_WIN_SIZE 0,480;").toList ≠ none ∧
      parse_win_size_message ("DATA:US_WIN_SIZE 0,480;").toList =
        some ([0, 480], 0) ∧ ¬ ((0 : Int) > 0) := by
  exact ⟨by decide, rfl, by decide⟩

/-- Witness for C8: the documented response format stores the parsed
geometry with the pixel count being the product of the dimensions. -/
theorem c8_witness :
    parse_win_size_message ("DATA:US_WIN_SIZE 640,480;").toList =
      some ([640, 480], 307200) ∧ (307200 : Int) = 640 * 480 := by
  refine ⟨rfl, ?_⟩
  exact (c8_parse_win_size_no_validation).1 ("DATA:US_WIN_SIZE 640,480;").toList
    640 480 307200 rfl

/-! ### Claim C4 -/

/-- Claim C4, code bug.  The spec (and the code's own
`control_bits = [1, 4, 27]` and the `decode_image` docstring) designate
27 = 0x1B as the escape/guard byte, but `receive_image` passes the
literal `0x27` (= 39) as the guard to both marker searches.  In the
buffer `[27, 1, 4]` the 0x01 at index 1 is preceded by the escape byte
27 and should be skipped, yet the start locator accepts it (first
conjunct); under the documented guard 0x1B there is no unescaped 0x01
in that buffer at all (third conjunct).  Likewise `[1, 27, 4]` has its
0x04 at index 2 preceded by the escape byte, yet the end locator
accepts it (second conjunct). -/
theorem c4_guard_byte_bug :
    msgStartIdx [27, 1, 4] = some 1 ∧
    msgEndIdx [1, 27, 4] 0 = some 2 ∧
    (List.range 3).filter (fun i =>
      ([27, 1, 4] : List Nat).getD i 0 == 1 &&
        (i == 0 || !(([27, 1, 4] : List Nat).getD (i - 1) 0 == 27))) = [] := by
  exact ⟨rfl, rfl, rfl⟩

/-! ### Claim C5 -/

/-- Claim C5, confirmed.  When the scanner finds a start marker but the
end-marker search reports no occurrence at or after it
(`msg_end_idx <= msg_start_idx`), `receive_image` reports an incomplete
outcome (returns False) with the buffer left completely unmodified and
no image assigned. -/
theorem c5_incomplete_keeps_buffer (buf : List Nat) (w h pix : Nat) (s e : Int)
    (hs : msgStartIdx buf = some s) (hs0 : 0 ≤ s)
    (he : msgEndIdx buf s.toNat = some e) (hes : e ≤ s) :
    receive_image buf w h pix = .ret false buf none := by
  unfold receive_image
  rw [hs]
  dsimp only
  rw [if_neg (by omega : ¬ s < 0), he]
  dsimp only
  rw [if_pos hes]

/-- Witness for C5: a buffer holding only the start marker byte. -/
theorem c5_witness :
    (msgStartIdx [1] = some 0 ∧ msgEndIdx [1] 0 = some (-1)) ∧
      receive_image [1] 2 2 4 = .ret false [1] none := by
  exact ⟨⟨rfl, rfl⟩,
    c5_incomplete_keeps_buffer [1] 2 2 4 0 (-1) rfl (by decide) rfl (by decide)⟩

/-! ### The decode phase of receive_image -/

theorem receive_image_decode_phase (buf : List Nat) (w h pix : Nat) (s e : Int)
    (hs : msgStartIdx buf = some s) (hs0 : 0 ≤ s)
    (he : msgEndIdx buf s.toNat = some e) (hse : s < e)
    (htag : bytesFind buf grabFrameTag s.toNat ≠ -1 ∧
      s < bytesFind buf grabFrameTag s.toNat ∧ bytesFind buf grabFrameTag s.toNat < e)
    (hsz : (bytesFind buf [35] s.toNat + 1).toNat < buf.length) :
    receive_image buf w h pix =
      match decode_image (payloadWindow buf s e) with
      | none => .err buf
      | some result =>
        if (result.take pix).length = h * w then
          .ret true (clear_bytes_in_buffer (bufferAfterDecode buf s e) 0 (e + 1).toNat)
            (some (reshapeRows (result.take pix) w h))
        else .err (bufferAfterDecode buf s e) := by
  unfold receive_image
  rw [hs]
  dsimp only
  rw [if_neg (by omega : ¬ s < 0), he]
  dsimp only
  rw [if_neg (by omega : ¬ e ≤ s), if_neg (not_not_intro htag), if_pos hsz]

theorem bufferAfterDecode_length (buf : List Nat) (s e : Int) :
    (bufferAfterDecode buf s e).length = buf.length := by
  unfold bufferAfterDecode
  rw [applyEscFlips_length]

/-! ### Claim C3 -/

/-- Claim C3, corrected.  The claim as frozen is false: a structural
decode failure (a reshape size mismatch, or the escape-scan IndexError)
raises before the line `self.clear_bytes_in_buffer(0, msg_end_idx + 1)`
is reached, so on failure no byte is cleared and the scan makes no
forward progress (see the counterexample).  Amended claim: when the
message decodes and reshapes successfully, `receive_image` clears the
buffer bytes 0 through `msg_end_idx` inclusive; when the reshape fails,
the exception propagates with the buffer retaining its full length
(only the in-place escape flips of the payload window applied). -/
theorem c3_clear_only_on_success (buf : List Nat) (w h pix : Nat) (s e : Int)
    (hs : msgStartIdx buf = some s) (hs0 : 0 ≤ s)
    (he : msgEndIdx buf s.toNat = some e) (hse : s < e)
    (htag : bytesFind buf grabFrameTag s.toNat ≠ -1 ∧
      s < bytesFind buf grabFrameTag s.toNat ∧ bytesFind buf grabFrameTag s.toNat < e)
    (hsz : (bytesFind buf [35] s.toNat + 1).toNat < buf.length)
    (result : List Nat)
    (hdec : decode_image (payloadWindow buf s e) = some result) :
    ((result.take pix).length = h * w →
      receive_image buf w h pix =
        .ret true ((bufferAfterDecode buf s e).drop (e + 1).toNat)
          (some (reshapeRows (result.take pix) w h)) ∧
      ((bufferAfterDecode buf s e).drop (e + 1).toNat).length =
        buf.length - (e + 1).toNat) ∧
    ((result.take pix).length ≠ h * w →
      receive_image buf w h pix = .err (bufferAfterDecode buf s e) ∧
      (bufferAfterDecode buf s e).length = buf.length) := by
  rw [receive_image_decode_phase buf w h pix s e hs hs0 he hse htag hsz, hdec]
  dsimp only
  constructor
  · intro hok
    rw [if_pos hok, clear_bytes_zero]
    refine ⟨rfl, ?_⟩
    rw [List.length_drop, bufferAfterDecode_length]
  · intro hbad
    rw [if_neg hbad]
    exact ⟨rfl, bufferAfterDecode_length buf s e⟩

/-- Counterexample for C3 as frozen: `imageFrameExample` reaches the
decode step (start 0, end 28, tag at 1), but with a pixel count of 5
the reshape fails and `receive_image` propagates the error with the
29-byte buffer intact: bytes 0 through 28 are not cleared. -/
theorem c3_counterexample :
    receive_image imageFrameExample 5 1 5 = .err imageFrameExample ∧
      msgEndIdx imageFrameExample 0 = some 28 ∧
      imageFrameExample.length = 29 := by
  exact ⟨by decide, by decide, by decide⟩

/-- Witness for C3: on the well-formed frame with matching geometry the
buffer is cleared through the end-of-message index. -/
theorem c3_witness :
    receive_image imageFrameExample 2 2 4 =
      .ret true ((bufferAfterDecode imageFrameExample 0 28).drop ((28 + 1 : Int)).toNat)
        (some (reshapeRows ([10, 20, 30, 40].take 4) 2 2)) ∧
    ((bufferAfterDecode imageFrameExample 0 28).drop ((28 + 1 : Int)).toNat).length =
      imageFrameExample.length - ((28 + 1 : Int)).toNat := by
  exact (c3_clear_only_on_success imageFrameExample 2 2 4 0 28 rfl (by decide) rfl
    (by decide) ⟨by decide, by decide, by decide⟩ (by decide) [10, 20, 30, 40]
    (by decide)).1 (by decide)

theorem reshapeRows_length (w : Nat) :
    ∀ (hh : Nat) (l : List Nat), (reshapeRows l w hh).length = hh
  | 0, _ => rfl
  | hh + 1, l => by
    rw [reshapeRows, List.length_cons, reshapeRows_length w hh (l.drop w)]

theorem reshapeRows_flatten (w : Nat) :
    ∀ (hh : Nat) (l : List Nat), l.length = hh * w →
      (reshapeRows l w hh).flatten = l
  | 0, l, hl => by
    rw [reshapeRows]
    rw [Nat.zero_mul] at hl
    exact (List.length_eq_zero.mp hl).symm ▸ rfl
  | hh + 1, l, hl => by
    rw [reshapeRows, List.flatten_cons]
    rw [reshapeRows_flatten w hh (l.drop w)
      (by rw [List.length_drop, hl, Nat.succ_mul, Nat.add_sub_cancel])]
    exact List.take_append_drop w l

theorem reshapeRows_row_length (w : Nat) :
    ∀ (hh : Nat) (l : List Nat), l.length = hh * w →
      ∀ row ∈ reshapeRows l w hh, row.length = w
  | 0, _, _ => by
    intro row hrow
    exact absurd hrow (by rw [reshapeRows]; exact List.not_mem_nil row)
  | hh + 1, l, hl => by
    intro row hrow
    rw [reshapeRows] at hrow
    rcases List.mem_cons.mp hrow with hhead | htail
    · rw [hhead, List.length_take]
      have : w ≤ l.length := by
        rw [hl]
        calc w = 1 * w := (Nat.one_mul w).symm
        _ ≤ (hh + 1) * w := Nat.mul_le_mul_right w (by omega)
      omega
    · exact reshapeRows_row_length w hh (l.drop w)
        (by rw [List.length_drop, hl, Nat.succ_mul, Nat.add_sub_cancel]) row htail

/-! ### Claim C7 -/

/-- Claim C7, corrected.  The claim as frozen is false in its final
clause: when the decoded payload is shorter than `pixel_count`, the
source does not tolerate it by taking fewer bytes — the reshape of
`result[:pixels_in_image]` needs exactly `height * width` elements, so
the call raises and no frame is produced (see the counterexample).
Amended claim: with `pixel_count = w * h`, whenever the decoded payload
holds at least `pixel_count` bytes, the decode step takes exactly the
first `pixel_count` bytes (tolerating trailing padding, i.e. payloads
longer than `pixel_count`) and reshapes them row-major into `h` rows of
`w` bytes; a shorter payload raises a size-mismatch error instead.  In
particular the 2 x 2 example frame with payload `[10, 20, 30, 40]`
decodes to the image `[[10, 20], [30, 40]]`. -/
theorem c7_reshape_row_major (buf : List Nat) (w h : Nat) (s e : Int)
    (hs : msgStartIdx buf = some s) (hs0 : 0 ≤ s)
    (he : msgEndIdx buf s.toNat = some e) (hse : s < e)
    (htag : bytesFind buf grabFrameTag s.toNat ≠ -1 ∧
      s < bytesFind buf grabFrameTag s.toNat ∧ bytesFind buf grabFrameTag s.toNat < e)
    (hsz : (bytesFind buf [35] s.toNat + 1).toNat < buf.length)
    (result : List Nat)
    (hdec : decode_image (payloadWindow buf s e) = some result) :
    (w * h ≤ result.length →
      ∃ rows, receive_image buf w h (w * h) =
          .ret true ((bufferAfterDecode buf s e).drop (e + 1).toNat) (some rows) ∧
        rows.flatten = result.take (w * h) ∧ rows.length = h ∧
        ∀ row ∈ rows, row.length = w) ∧
    (result.length < w * h →
      receive_image buf w h (w * h) = .err (bufferAfterDecode buf s e)) ∧
    receive_image imageFrameExample 2 2 4 =
      .ret true [] (some [[10, 20], [30, 40]]) := by
  rw [receive_image_decode_phase buf w h (w * h) s e hs hs0 he hse htag hsz, hdec]
  dsimp only
  have hlt : (result.take (w * h)).length = min (w * h) result.length := by
    rw [List.length_take]
  refine ⟨?_, ?_, by decide⟩
  · intro hge
    have hok : (result.take (w * h)).length = h * w := by
      rw [hlt, min_eq_left hge, Nat.mul_comm]
    rw [if_pos hok, clear_bytes_zero]
    refine ⟨reshapeRows (result.take (w * h)) w h, rfl, ?_, ?_, ?_⟩
    · exact reshapeRows_flatten w h (result.take (w * h)) hok
    · exact reshapeRows_length w h (result.take (w * h))
    · exact reshapeRows_row_length w h (result.take (w * h)) hok
  · intro hshort
    have hbad : (result.take (w * h)).length ≠ h * w := by
      rw [hlt, min_eq_right (Nat.le_of_lt hshort)]
      have := Nat.mul_comm w h
      omega
    rw [if_neg hbad]

/-- Counterexample for C7 as frozen: the frame whose decoded payload is
`[10, 20, 30]`, shorter than `pixel_count = 4`, makes `receive_image`
raise (no frame, buffer kept) instead of taking the first
`pixel_count` bytes. -/
theorem c7_counterexample :
    decode_image (payloadWindow shortPayloadFrame 0 27) = some [10, 20, 30] ∧
      ([10, 20, 30] : List Nat).length < 4 ∧
      receive_image shortPayloadFrame 2 2 4 = .err shortPayloadFrame := by
  exact ⟨by decide, by decide, by decide⟩

/-- Witness for C7: the amended theorem instantiated on the well-formed
2 x 2 example frame. -/
theorem c7_witness :
    2 * 2 ≤ ([10, 20, 30, 40] : List Nat).length ∧
      ∃ rows, receive_image imageFrameExample 2 2 (2 * 2) =
          .ret true ((bufferAfterDecode imageFrameExample 0 28).drop
            ((28 + 1 : Int)).toNat) (some rows) ∧
        rows.flatten = ([10, 20, 30, 40] : List Nat).take (2 * 2) ∧ rows.length = 2 ∧
        ∀ row ∈ rows, row.length = 2 := by
  refine ⟨by decide, ?_⟩
  exact (c7_reshape_row_major imageFrameExample 2 2 0 28 rfl (by decide) rfl
    (by decide) ⟨by decide, by decide, by decide⟩ (by decide) [10, 20, 30, 40]
    (by decide)).1 (by decide)

theorem getD_take_lt (l : List Nat) (n j d : Nat) (hj : j < n) :
    (l.take n).getD j d = l.getD j d := by
  rw [List.getD_eq_getElem?_getD, List.getD_eq_getElem?_getD,
    List.getElem?_take_of_lt hj]

/-! ### Claim C9 -/

/-- Claim C9, confirmed.  For a located image message, with `hp` the
position returned by the search for the `#` length-marker byte, `d` the
byte immediately following it (an ASCII digit, so `48 ≤ d`) and
`dc = d - 48` its digit value, the payload window handed to the decode
step starts at the buffer position with exactly `1 + 4 + dc` bytes
strictly between the `#` byte and the window (the digit byte, the
4-byte fixed sub-header and the `dc` inline length digits), i.e. at
`hp + 1 + (1 + 4 + dc)`, and its last byte sits 2 positions before the
end-of-message index: the window has length `(end - 2) - start + 1` and
its `j`-th byte is buffer byte `start + j`. -/
theorem c9_payload_window_bounds (buf : List Nat) (s e hp : Int) (d dc start : Nat)
    (hhp : bytesFind buf [35] s.toNat = hp) (hhp0 : 0 ≤ hp)
    (hd : buf.getD (hp.toNat + 1) 0 = d) (hdig : 48 ≤ d)
    (hdc : dc = d - 48)
    (hstart : start = hp.toNat + 1 + (1 + 4 + dc))
    (he2 : 2 ≤ e) (hse : (start : Int) ≤ e - 2) (helen : e.toNat - 2 < buf.length) :
    (payloadWindow buf s e).length = (e.toNat - 2) - start + 1 ∧
    ∀ j, j < (e.toNat - 2) - start + 1 →
      (payloadWindow buf s e).getD j 0 = buf.getD (start + j) 0 := by
  unfold payloadWindow payloadSliceBounds
  rw [hhp]
  dsimp only
  have htn : (hp + 1).toNat = hp.toNat + 1 := by omega
  rw [htn, hd]
  have hp1 : hp + 1 + 1 + 4 + (d : Int) - 48 = (start : Int) := by
    rw [hstart, hdc]
    push_cast
    omega
  rw [hp1]
  have ha : pyNormIdx (start : Int) buf.length = start := by
    unfold pyNormIdx
    rw [if_neg (by omega)]
    have h1 : ((start : Int)).toNat = start := by omega
    rw [h1, min_eq_left (by omega)]
  have hb : pyNormIdx (e - 2 + 1) buf.length = e.toNat - 1 := by
    unfold pyNormIdx
    rw [if_neg (by omega)]
    have h1 : (e - 2 + 1).toNat = e.toNat - 1 := by omega
    rw [h1, min_eq_left (by omega)]
  rw [ha, hb]
  constructor
  · rw [List.length_take, List.length_drop]
    omega
  · intro j hj
    rw [getD_take_lt _ _ _ _ (by omega), getD_drop]

/-- Witness for C9: on the example frame the `#` byte sits at index 16,
the digit byte is `'1'` (value 49, digit count 1), so the payload
window starts at buffer index 16 + 1 + (1 + 4 + 1) = 23, has length 4
and ends at index 26 = 28 - 2. -/
theorem c9_witness :
    (payloadWindow imageFrameExample 0 28).length =
      (((28 : Int)).toNat - 2) - 23 + 1 ∧
    ∀ j, j < (((28 : Int)).toNat - 2) - 23 + 1 →
      (payloadWindow imageFrameExample 0 28).getD j 0 =
        imageFrameExample.getD (23 + j) 0 :=
  c9_payload_window_bounds imageFrameExample 0 28 16 49 1 23 (by decide) (by decide)
    (by decide) (by decide) (by decide) (by decide) (by decide) (by decide) (by decide)

/-! ### Claim C10 -/

/-- Claim C10, corrected.  The in-place XOR of `decode_image` does
mutate the backing buffer through the numpy view — but only when the
escape scan completes: if the payload window ends with the escape byte
27, the scan raises IndexError before the XOR executes and the buffer
is left untouched even though the window contains an escape sequence
(see the counterexample).  Amended claim: for every payload window (a
view of the buffer at offset `off`, entirely inside it) that contains
at least one escape deletion site and whose scan reaches the XOR, the
flip of each escaped byte is visible in the backing buffer: byte
`off + j + 1` is complemented for a deletion site `j`, so the buffer
after decode differs from the buffer before. -/
theorem c10_inplace_flip (buf : List Nat) (off : Nat) (window : List Nat)
    (hoff : off + window.length ≤ buf.length)
    (hesc : escIndices window ≠ []) :
    (∃ j, j ∈ escIndices window ∧
      (applyEscFlips buf off window).getD (off + j + 1) 0 =
        buf.getD (off + j + 1) 0 ^^^ 255) ∧
    applyEscFlips buf off window ≠ buf := by
  obtain ⟨j, hj⟩ : ∃ j, j ∈ escIndices window := by
    rcases hE : escIndices window with _ | ⟨j, t⟩
    · exact absurd hE hesc
    · exact ⟨j, hE ▸ List.mem_cons_self j t⟩
  have hjf := List.mem_filter.mp hj
  have hjlen : j < window.length := List.mem_range.mp hjf.1
  have hflip : window.getD (j + 1) 0 = 254 ∨ window.getD (j + 1) 0 = 251 ∨
      window.getD (j + 1) 0 = 228 := by
    have h2 := hjf.2
    simp only [isEscIdx, beq_iff_eq, Bool.and_eq_true, Bool.or_eq_true] at h2
    tauto
  have hj1 : j + 1 < window.length := by
    by_contra hcon
    have hz : window.getD (j + 1) 0 = 0 := by
      rw [List.getD_eq_getElem?_getD, List.getElem?_eq_none (by omega)]
      rfl
    omega
  have hidx : off + j + 1 < buf.length := by omega
  have hgetD : (applyEscFlips buf off window).getD (off + j + 1) 0 =
      buf.getD (off + j + 1) 0 ^^^ 255 := by
    unfold applyEscFlips
    rw [getD_map_range _ _ _ _ hidx]
    have hsub : off + j + 1 - (off + 1) = j := by omega
    rw [if_pos ⟨by omega, by rw [hsub]; exact List.elem_eq_true_of_mem hj⟩]
  refine ⟨⟨j, hj, hgetD⟩, ?_⟩
  intro hEqBuf
  rw [hEqBuf] at hgetD
  have hx : buf.getD (off + j + 1) 0 ^^^ buf.getD (off + j + 1) 0 =
      buf.getD (off + j + 1) 0 ^^^ (buf.getD (off + j + 1) 0 ^^^ 255) := by
    rw [← hgetD]
  rw [Nat.xor_self, ← Nat.xor_assoc, Nat.xor_self, Nat.zero_xor] at hx
  exact absurd hx.symm (by decide)

/-- Counterexample for C10 as frozen: the payload window of
`escCrashFrame` is `[27, 254, 27]`, which contains an escape sequence
(deletion site 0), yet `receive_image` raises in the escape scan before
the XOR executes and the buffer is returned byte-for-byte unchanged: no
in-place mutation happens. -/
theorem c10_counterexample :
    payloadWindow escCrashFrame 0 27 = [27, 254, 27] ∧
      escIndices [27, 254, 27] ≠ [] ∧
      receive_image escCrashFrame 2 2 4 = .err escCrashFrame := by
  exact ⟨by decide, by decide, by decide⟩

/-- Witness for C10: flipping the window `[27, 254]` viewed at offset 1
of the buffer `[1, 27, 254, 9]` complements the backing byte at
position 2. -/
theorem c10_witness :
    (1 + ([27, 254] : List Nat).length ≤ ([1, 27, 254, 9] : List Nat).length ∧
      escIndices [27, 254] ≠ []) ∧
      ((∃ j, j ∈ escIndices [27, 254] ∧
        (applyEscFlips [1, 27, 254, 9] 1 [27, 254]).getD (1 + j + 1) 0 =
          ([1, 27, 254, 9] : List Nat).getD (1 + j + 1) 0 ^^^ 255) ∧
      applyEscFlips [1, 27, 254, 9] 1 [27, 254] ≠ [1, 27, 254, 9]) :=
  ⟨⟨by decide, by decide⟩,
    c10_inplace_flip [1, 27, 254, 9] 1 [27, 254] (by decide) (by decide)⟩

end BK


